import Mathlib

/-!
Verification of the address-conversion codec of `scripts/address_conversion.py`:
conversions between raw 32-byte public keys, SS58 address strings and 20-byte
H160 (Ethereum-style) addresses.

Byte sequences are modelled as `List Nat` with every element `< 256`; Python
strings are modelled as `List Char`.  The hash `hashlib.blake2b` and the SS58 /
base58 codecs of the `substrateinterface` and `base58` libraries are not part
of the repository's own sources, so they are modelled here from the spec
(blake2b per RFC 7693, base58 over the Bitcoin alphabet, SS58 with the
`SS58PRE`-tagged blake2b-512 checksum truncated to two bytes); all definitions
are executable so that concrete address vectors can be checked by evaluation.
-/

/-- Word size modulus for blake2b: all words are 64-bit. -/
def w64 : Nat := 18446744073709551616

/-- Rotate a 64-bit word right by `n` bits (for `x < 2^64`, `0 < n < 64`). -/
def rotr (x n : Nat) : Nat := (x >>> n ||| x <<< (64 - n)) % w64

/-- Initialization vector of blake2b (RFC 7693). -/
def iv : List Nat :=
  [0x6a09e667f3bcc908, 0xbb67ae8584caa73b, 0x3c6ef372fe94f82b, 0xa54ff53a5f1d36f1,
   0x510e527fade682d1, 0x9b05688c2b3e6c1f, 0x1f83d9abfb41bd6b, 0x5be0cd19137e2179]

/-- Message-word permutation schedule of blake2 (RFC 7693), row `r`. -/
def sigmaRow (r : Nat) : List Nat :=
  match r with
  | 0 => [0, 1, 2, 3, 4, 5, 6, 7, 8, 9, 10, 11, 12, 13, 14, 15]
  | 1 => [14, 10, 4, 8, 9, 15, 13, 6, 1, 12, 0, 2, 11, 7, 5, 3]
  | 2 => [11, 8, 12, 0, 5, 2, 15, 13, 10, 14, 3, 6, 7, 1, 9, 4]
  | 3 => [7, 9, 3, 1, 13, 12, 11, 14, 2, 6, 5, 10, 4, 0, 15, 8]
  | 4 => [9, 0, 5, 7, 2, 4, 10, 15, 14, 1, 11, 12, 6, 8, 3, 13]
  | 5 => [2, 12, 6, 10, 0, 11, 8, 3, 4, 13, 7, 5, 15, 14, 1, 9]
  | 6 => [12, 5, 1, 15, 14, 13, 4, 10, 0, 7, 6, 3, 9, 2, 8, 11]
  | 7 => [13, 11, 7, 14, 12, 1, 3, 9, 5, 0, 15, 4, 8, 6, 2, 10]
  | 8 => [6, 15, 14, 9, 11, 3, 0, 8, 12, 2, 13, 7, 1, 4, 10, 5]
  | _ => [10, 2, 8, 4, 7, 6, 1, 5, 15, 11, 9, 14, 3, 12, 13, 0]

/-- The blake2 G mixing function acting at positions `a b c d` of the 16-word
working vector `v`, with message words `x y`. -/
def gmix (v : List Nat) (a b c d x y : Nat) : List Nat :=
  let va := (v.getD a 0 + v.getD b 0 + x) % w64
  let vd := rotr (Nat.xor (v.getD d 0) va) 32
  let vc := (v.getD c 0 + vd) % w64
  let vb := rotr (Nat.xor (v.getD b 0) vc) 24
  let va2 := (va + vb + y) % w64
  let vd2 := rotr (Nat.xor vd va2) 16
  let vc2 := (vc + vd2) % w64
  let vb2 := rotr (Nat.xor vb vc2) 63
  (((v.set a va2).set b vb2).set c vc2).set d vd2

/-- One blake2b round: eight G applications with message words permuted by
`sigmaRow (r % 10)`. -/
def roundFn (m : List Nat) (r : Nat) (v : List Nat) : List Nat :=
  let s := sigmaRow (r % 10)
  let mi := fun i => m.getD (s.getD i 0) 0
  let v1 := gmix v 0 4 8 12 (mi 0) (mi 1)
  let v2 := gmix v1 1 5 9 13 (mi 2) (mi 3)
  let v3 := gmix v2 2 6 10 14 (mi 4) (mi 5)
  let v4 := gmix v3 3 7 11 15 (mi 6) (mi 7)
  let v5 := gmix v4 0 5 10 15 (mi 8) (mi 9)
  let v6 := gmix v5 1 6 11 12 (mi 10) (mi 11)
  let v7 := gmix v6 2 7 8 13 (mi 12) (mi 13)
  gmix v7 3 4 9 14 (mi 14) (mi 15)

/-- The blake2b compression function F: state `h` (8 words), message block
`m` (16 words), byte counter `t`, finalization flag `f`. -/
def compress (h : List Nat) (m : List Nat) (t : Nat) (f : Bool) : List Nat :=
  let v0 := h ++ iv
  let v1 := v0.set 12 (Nat.xor (v0.getD 12 0) (t % w64))
  let v2 := v1.set 13 (Nat.xor (v1.getD 13 0) (t / w64 % w64))
  let v3 := if f then v2.set 14 (Nat.xor (v2.getD 14 0) (w64 - 1)) else v2
  let w := (List.range 12).foldl (fun acc r => roundFn m r acc) v3
  [Nat.xor (h.getD 0 0) (Nat.xor (w.getD 0 0) (w.getD 8 0)),
   Nat.xor (h.getD 1 0) (Nat.xor (w.getD 1 0) (w.getD 9 0)),
   Nat.xor (h.getD 2 0) (Nat.xor (w.getD 2 0) (w.getD 10 0)),
   Nat.xor (h.getD 3 0) (Nat.xor (w.getD 3 0) (w.getD 11 0)),
   Nat.xor (h.getD 4 0) (Nat.xor (w.getD 4 0) (w.getD 12 0)),
   Nat.xor (h.getD 5 0) (Nat.xor (w.getD 5 0) (w.getD 13 0)),
   Nat.xor (h.getD 6 0) (Nat.xor (w.getD 6 0) (w.getD 14 0)),
   Nat.xor (h.getD 7 0) (Nat.xor (w.getD 7 0) (w.getD 15 0))]

/-- Read a little-endian word from a byte list. -/
def leWord (bs : List Nat) : Nat := bs.foldr (fun b acc => acc * 256 + b) 0

/-- Split a 128-byte block into `k` little-endian 64-bit words. -/
def toWords (k : Nat) (bs : List Nat) : List Nat :=
  match k with
  | 0 => []
  | k + 1 => leWord (bs.take 8) :: toWords k (bs.drop 8)

/-- Pad a final block with zero bytes to 128 bytes. -/
def padBlock (bs : List Nat) : List Nat := bs ++ List.replicate (128 - bs.length) 0

/-- Process the message 128 bytes at a time; `done` counts bytes already
compressed and `fuel` bounds the number of blocks. -/
def blakeLoop (h : List Nat) (bs : List Nat) (done fuel : Nat) : List Nat :=
  match fuel with
  | 0 => h
  | fuel + 1 =>
    if bs.length ≤ 128 then
      compress h (toWords 16 (padBlock bs)) (done + bs.length) true
    else
      blakeLoop (compress h (toWords 16 (bs.take 128)) (done + 128) false)
        (bs.drop 128) (done + 128) fuel

/-- Little-endian serialization of one 64-bit word into 8 bytes. -/
def leBytes8 (x : Nat) : List Nat :=
  [x % 256, x / 2 ^ 8 % 256, x / 2 ^ 16 % 256, x / 2 ^ 24 % 256,
   x / 2 ^ 32 % 256, x / 2 ^ 40 % 256, x / 2 ^ 48 % 256, x / 2 ^ 56 % 256]

/-- Modelled from the spec: `hashlib.blake2b(data, digest_size=d).digest()`,
the keyless blake2b hash of RFC 7693 with a `d`-byte digest (`1 ≤ d ≤ 64`);
the library implementation is not part of this repository's sources. -/
def blake2b (digest_size : Nat) (data : List Nat) : List Nat :=
  let h0 := iv.set 0 (Nat.xor (iv.getD 0 0) (Nat.xor 0x01010000 digest_size))
  let hh := blakeLoop h0 data 0 (data.length + 1)
  ((hh.map leBytes8).flatten).take digest_size

/-- The Bitcoin base58 alphabet (excludes `0`, `O`, `I`, `l`). -/
def b58Alphabet : List Char := "123456789ABCDEFGHJKLMNPQRSTUVWXYZabcdefghijkmnopqrstuvwxyz".toList

/-- Character of a base58 digit (`d < 58`). -/
def b58Char (d : Nat) : Char := b58Alphabet.getD d '?'

/-- Value of a base58 character, `none` outside the alphabet. -/
def b58Val (c : Char) : Option Nat := b58Alphabet.findIdx? (· == c)

/-- Big-endian value of a byte list. -/
def beNat (bs : List Nat) : Nat := bs.foldl (fun acc b => acc * 256 + b) 0

/-- Little-endian digits of `n` in base `b`, computed with explicit fuel so
that the definition is structurally recursive (no digits for `n = 0`). -/
def digitsLE (b fuel n : Nat) : List Nat :=
  match fuel with
  | 0 => []
  | fuel + 1 => if n = 0 then [] else n % b :: digitsLE b fuel (n / b)

/-- Modelled from the spec: `base58.b58encode` of the `base58` library (not in
this repository's sources): leading zero bytes become leading `'1'` characters
and the remainder is the big-endian base58 numeral of the input value. -/
def b58encode (bs : List Nat) : List Char :=
  let zeros := (bs.takeWhile (· == 0)).length
  let n := beNat bs
  List.replicate zeros '1' ++ (digitsLE 58 n n).reverse.map b58Char

/-- Map base58 characters to their digit values, failing on any character
outside the alphabet. -/
def b58Vals : List Char → Option (List Nat)
  | [] => some []
  | c :: rest =>
    match b58Val c, b58Vals rest with
    | some v, some t => some (v :: t)
    | _, _ => none

/-- Modelled from the spec: `base58.b58decode` (not in this repository's
sources): fails on a character outside the alphabet; leading `'1'` characters
become leading zero bytes and the rest is read as a base58 numeral. -/
def b58decode (cs : List Char) : Option (List Nat) :=
  match b58Vals cs with
  | none => none
  | some vals =>
    let zeros := (vals.takeWhile (· == 0)).length
    let n := vals.foldl (fun acc d => acc * 58 + d) 0
    some (List.replicate zeros 0 ++ (digitsLE 256 n n).reverse)

/-- ASCII bytes of the SS58 checksum context tag `"SS58PRE"`. -/
def ss58Pre : List Nat := [83, 83, 53, 56, 80, 82, 69]

/-- Modelled from the spec: the SS58 checksum engine — the first `len` bytes
of the blake2b-512 hash of `"SS58PRE" ++ taggedPayload`. -/
def sscheck (taggedPayload : List Nat) (len : Nat) : List Nat :=
  (blake2b 64 (ss58Pre ++ taggedPayload)).take len

/-- Typed failures of the codec (§7 of the spec); in the Python source each is
raised as a `ValueError` whose message identifies the category. -/
inductive CodecError : Type
  | malformedEncoding
  | checksumMismatch
  | truncatedAddress
  | invalidPayloadLength
  | invalidHexEncoding
deriving DecidableEq, Repr

/-- Modelled from the spec: `ss58_encode` of the `substrateinterface` library
(not in this repository's sources), restricted to single-byte network formats
`0 ≤ ss58_format < 64`: base58 of format byte ++ payload ++ 2-byte checksum. -/
def ss58Encode (ss58_format : Nat) (payload : List Nat) : List Char :=
  let raw := ss58_format :: payload
  b58encode (raw ++ sscheck raw 2)

/-- Modelled from the spec: SS58 decoding as done inside
`substrateinterface`'s `ss58_decode` (not in this repository's sources):
base58-decode (else `malformedEncoding`), reject raw data shorter than
format byte + 32-byte payload + 2-byte checksum (`truncatedAddress`),
recompute the tagged checksum over format byte ++ payload and reject a
mismatch (`checksumMismatch`); returns the format and the payload. -/
def ss58Decode (cs : List Char) : Except CodecError (Nat × List Nat) :=
  match b58decode cs with
  | none => .error .malformedEncoding
  | some raw =>
    if raw.length < 35 then .error .truncatedAddress
    else
      let body := (raw.drop 1).take (raw.length - 3)
      let stored := raw.drop (raw.length - 2)
      if stored = sscheck (raw.take (raw.length - 2)) 2 then
        .ok (raw.getD 0 0, body)
      else .error .checksumMismatch

/-- Modelled from the spec: construction of `Keypair(ss58_address=...)` from
the `substrateinterface` library (not in this repository's sources): decode
the SS58 string and retain the 32-byte public key, failing on any other
payload length. -/
def keypairPubkey (cs : List Char) : Except CodecError (List Nat) :=
  match ss58Decode cs with
  | .ok (_, payload) =>
    if payload.length = 32 then .ok payload else .error .invalidPayloadLength
  | .error e => .error e

/-- Embeds `ss58_to_pubkey` of `scripts/address_conversion.py`: build a
keypair from the SS58 address and return its public key; every underlying
failure is re-raised to the caller as a `ValueError` (kept typed here). -/
def ss58_to_pubkey (ss58_address : List Char) : Except CodecError (List Nat) :=
  keypairPubkey ss58_address

/-- Hexadecimal digit characters of one byte (as produced by Python's
`bytes.hex`, lowercase). -/
def hexByte (b : Nat) : List Char :=
  [(Nat.digitChar (b / 16)), (Nat.digitChar (b % 16))]

/-- Python `bytes.hex()`: lowercase hexadecimal string of a byte list. -/
def bytesHex (bs : List Nat) : List Char := (bs.map hexByte).flatten

/-- Embeds `ss58_to_h160` of `scripts/address_conversion.py`: decode the SS58
address to its public key and return `"0x"` ++ hex of the last 20 bytes; on
ANY failure the source prints the error and returns `None` (modelled as
`none`), not a typed failure. -/
def ss58_to_h160 (ss58_address : List Char) : Option (List Char) :=
  match keypairPubkey ss58_address with
  | .ok public_key =>
    some ('0' :: 'x' :: bytesHex (public_key.drop (public_key.length - 20)))
  | .error _ => none

/-- Value of a hexadecimal character (upper or lower case), `none` otherwise. -/
def hexVal (c : Char) : Option Nat :=
  if 48 ≤ c.toNat ∧ c.toNat ≤ 57 then some (c.toNat - 48)
  else if 97 ≤ c.toNat ∧ c.toNat ≤ 102 then some (c.toNat - 87)
  else if 65 ≤ c.toNat ∧ c.toNat ≤ 70 then some (c.toNat - 55)
  else none

/-- Modelled from the spec: Python's `bytes.fromhex` (a builtin, not in this
repository's sources): pairs of hexadecimal digits become bytes, ASCII spaces
between pairs are skipped, and any other character, or an odd number of
digits, raises `ValueError` (here `none`). -/
def fromhex : List Char → Option (List Nat)
  | [] => some []
  | c :: rest =>
    if c = ' ' then fromhex rest
    else
      match rest with
      | [] => none
      | c2 :: rest2 =>
        match hexVal c, hexVal c2, fromhex rest2 with
        | some hi, some lo, some t => some ((hi * 16 + lo) :: t)
        | _, _, _ => none

/-- ASCII bytes of the EVM domain tag `"evm:"`, i.e. `bytes('evm:', 'utf-8')`. -/
def evmTag : List Nat := [101, 118, 109, 58]

/-- Strip one leading `"0x"` from a string, as the source's
`h160_address.startswith("0x")` branch does. -/
def strip0x (cs : List Char) : List Char :=
  match cs with
  | '0' :: 'x' :: rest => rest
  | _ => cs

/-- Embeds `h160_to_ss58` of `scripts/address_conversion.py`: strip an
optional `0x`, parse the hex string to bytes (a `ValueError` — here
`invalidHexEncoding` — propagates on bad hex), hash `"evm:" ++ bytes` with
blake2b-256 and SS58-encode the 32-byte digest under `ss58_format`
(default 42). -/
def h160_to_ss58 (h160_address : List Char) (ss58_format : Nat := 42) :
    Except CodecError (List Char) :=
  match fromhex (strip0x h160_address) with
  | none => .error .invalidHexEncoding
  | some address_bytes =>
    .ok (ss58Encode ss58_format (blake2b 32 (evmTag ++ address_bytes)))

/-- Modelled from the spec: `AddressDeriver.public_key_to_ss58`; the source's
callers invoke the library `ss58_encode` on raw key bytes directly. -/
def public_key_to_ss58 (pubkey : List Nat) (ss58_format : Nat := 42) : List Char :=
  ss58Encode ss58_format pubkey

lemma digitsLE_eq (b : Nat) (hb : 1 < b) :
    ∀ fuel n, n ≤ fuel → digitsLE b fuel n = Nat.digits b n := by
  intro fuel
  induction fuel with
  | zero =>
    intro n hn
    have : n = 0 := Nat.le_zero.mp hn
    subst this
    simp [digitsLE]
  | succ f ih =>
    intro n hn
    by_cases h0 : n = 0
    · subst h0; simp [digitsLE]
    · have hstep : digitsLE b (f + 1) n = n % b :: digitsLE b f (n / b) := by
        simp [digitsLE, h0]
      have hlt : n / b < n := Nat.div_lt_self (Nat.pos_of_ne_zero h0) hb
      have hle : n / b ≤ f := Nat.lt_succ_iff.mp (Nat.lt_of_lt_of_le hlt hn)
      rw [hstep, ih (n / b) hle, ← Nat.digits_def' hb (Nat.pos_of_ne_zero h0)]

lemma foldlMulAdd_eq_ofDigits (b : Nat) :
    ∀ (l : List Nat) (a : Nat),
      l.foldl (fun acc d => acc * b + d) a = Nat.ofDigits b l.reverse + a * b ^ l.length := by
  intro l
  induction l with
  | nil => intro a; simp [Nat.ofDigits]
  | cons x xs ih =>
    intro a
    simp only [List.foldl_cons, List.reverse_cons, Nat.ofDigits_append, List.length_reverse,
      List.length_cons, Nat.ofDigits_singleton, ih]
    ring

lemma beNat_eq (bs : List Nat) : beNat bs = Nat.ofDigits 256 bs.reverse := by
  simpa using foldlMulAdd_eq_ofDigits 256 bs 0

lemma ofDigits_replicate_zero (b : Nat) : ∀ z, Nat.ofDigits b (List.replicate z 0) = 0 := by
  intro z
  induction z with
  | zero => simp [Nat.ofDigits]
  | succ k ih => simp [List.replicate_succ, Nat.ofDigits_cons, ih]

lemma length_takeWhile_replicate_append {α : Type} (p : α → Bool) (a : α) (hpa : p a = true)
    (z : Nat) (l : List α) (hl : ∀ x, l.head? = some x → p x = false) :
    ((List.replicate z a ++ l).takeWhile p).length = z := by
  induction z with
  | zero =>
    cases l with
    | nil => simp
    | cons x xs =>
      have hx := hl x rfl
      simp [List.takeWhile_cons, hx]
  | succ k ih =>
    rw [List.replicate_succ, List.cons_append]
    simp only [List.takeWhile_cons, hpa, if_true, List.length_cons, ih]

lemma b58Val_b58Char : ∀ d, d < 58 → b58Val (b58Char d) = some d := by decide

lemma b58Char_beq_one : ∀ d, d < 58 → d ≠ 0 → (b58Char d == '1') = false := by decide

lemma b58Val_one : b58Val '1' = some 0 := by decide

lemma b58Vals_cons (c : Char) (cs : List Char) :
    b58Vals (c :: cs) =
      match b58Val c, b58Vals cs with
      | some v, some t => some (v :: t)
      | _, _ => none := rfl

lemma b58Vals_append {l1 l2 : List Char} {v1 v2 : List Nat}
    (h1 : b58Vals l1 = some v1) (h2 : b58Vals l2 = some v2) :
    b58Vals (l1 ++ l2) = some (v1 ++ v2) := by
  induction l1 generalizing v1 with
  | nil =>
    simp only [b58Vals] at h1
    cases h1
    simpa using h2
  | cons c cs ih =>
    rw [List.cons_append, b58Vals_cons] at *
    cases hv : b58Val c with
    | none => rw [hv] at h1; simp at h1
    | some v =>
      rw [hv] at h1
      cases ht : b58Vals cs with
      | none => rw [ht] at h1; simp at h1
      | some t =>
        rw [ht] at h1
        simp only at h1
        cases h1
        rw [ih ht]
        rfl

lemma b58Vals_replicate_one :
    ∀ z, b58Vals (List.replicate z '1') = some (List.replicate z 0) := by
  intro z
  induction z with
  | zero => rfl
  | succ k ih =>
    rw [List.replicate_succ, b58Vals_cons, b58Val_one, ih]
    simp [List.replicate_succ]

lemma b58Vals_map_b58Char :
    ∀ ds : List Nat, (∀ d ∈ ds, d < 58) → b58Vals (ds.map b58Char) = some ds := by
  intro ds
  induction ds with
  | nil => intro _; rfl
  | cons d rest ih =>
    intro h
    rw [List.map_cons, b58Vals_cons, b58Val_b58Char d (h d (List.mem_cons_self d rest)),
      ih (fun x hx => h x (List.mem_cons_of_mem d hx))]

lemma takeWhile_zero_eq_replicate (bs : List Nat) :
    bs.takeWhile (· == 0) = List.replicate (bs.takeWhile (· == 0)).length 0 := by
  apply List.eq_replicate_length.2
  intro b hb
  simpa using List.mem_takeWhile_imp hb

lemma b58_decode_encode (bs : List Nat) (h : ∀ x ∈ bs, x < 256) :
    b58decode (b58encode bs) = some bs := by
  set z := (bs.takeWhile (· == 0)).length with hz
  set rest := bs.dropWhile (· == 0) with hrest
  have hbs : List.replicate z 0 ++ rest = bs := by
    rw [hz, hrest, ← takeWhile_zero_eq_replicate, List.takeWhile_append_dropWhile]
  have hrest_head : ∀ x, rest.head? = some x → (x == 0) = false := by
    intro x hx
    have hne : rest ≠ [] := by
      intro hh
      rw [hh] at hx
      exact Option.noConfusion hx
    have hhd := List.head_dropWhile_not (fun y => y == 0) bs (hrest ▸ hne)
    have : rest.head hne = x := by
      have := List.head?_eq_head hne
      rw [hx] at this
      exact (Option.some.injEq _ _).mp this.symm
    rw [← this]
    simpa [hrest] using hhd
  have hrb : ∀ x ∈ rest, x < 256 := by
    intro x hx
    exact h x ((List.dropWhile_sublist (· == 0)).subset (hrest ▸ hx))
  set n := beNat bs with hn
  have hn' : n = Nat.ofDigits 256 rest.reverse := by
    rw [hn, beNat_eq, ← hbs, List.reverse_append, List.reverse_replicate,
      Nat.ofDigits_append, ofDigits_replicate_zero, Nat.mul_zero, Nat.add_zero]
  have henc : b58encode bs = List.replicate z '1' ++ (Nat.digits 58 n).reverse.map b58Char := by
    simp only [b58encode, ← hz, ← hn]
    rw [digitsLE_eq 58 (by norm_num) n n le_rfl]
  have hd58 : ∀ d ∈ (Nat.digits 58 n).reverse, d < 58 := by
    intro d hd
    exact Nat.digits_lt_base (by norm_num) (List.mem_reverse.1 hd)
  have hvals : b58Vals (b58encode bs) =
      some (List.replicate z 0 ++ (Nat.digits 58 n).reverse) := by
    rw [henc]
    exact b58Vals_append (b58Vals_replicate_one z) (b58Vals_map_b58Char _ hd58)
  have hzeros :
      ((List.replicate z 0 ++ (Nat.digits 58 n).reverse).takeWhile (· == 0)).length = z := by
    apply length_takeWhile_replicate_append _ _ (by simp)
    intro x hx
    rw [List.head?_reverse] at hx
    by_cases h0 : n = 0
    · rw [h0, Nat.digits_zero] at hx
      exact Option.noConfusion hx
    · have hne : Nat.digits 58 n ≠ [] := Nat.digits_ne_nil_iff_ne_zero.mpr h0
      have hgl : (Nat.digits 58 n).getLast hne = x := by
        have h1 := List.getLast?_eq_getLast (Nat.digits 58 n) hne
        rw [hx] at h1
        exact (Option.some.injEq _ _).mp h1.symm
      have h2 := Nat.getLast_digit_ne_zero 58 h0
      rw [hgl] at h2
      simpa using h2
  have hfold :
      (List.replicate z 0 ++ (Nat.digits 58 n).reverse).foldl (fun acc d => acc * 58 + d) 0 = n := by
    rw [foldlMulAdd_eq_ofDigits, List.reverse_append, List.reverse_reverse,
      List.reverse_replicate, Nat.ofDigits_append, Nat.ofDigits_digits,
      ofDigits_replicate_zero, Nat.mul_zero, Nat.add_zero, Nat.zero_mul, Nat.add_zero]
  have hback : (digitsLE 256 n n).reverse = rest := by
    rw [digitsLE_eq 256 (by norm_num) n n le_rfl, hn']
    have hlast : ∀ (hne : rest.reverse ≠ []), rest.reverse.getLast hne ≠ 0 := by
      intro hne
      have hne' : rest ≠ [] := by
        intro hh
        rw [hh] at hne
        exact hne rfl
      have h1 := List.getLast?_reverse rest
      rw [List.getLast?_eq_getLast rest.reverse hne, List.head?_eq_head hne'] at h1
      have h2 := hrest_head (rest.head hne') (List.head?_eq_head hne')
      intro h3
      have h5 := (Option.some.injEq _ _).mp h1
      rw [← h5, h3] at h2
      simp at h2
    rw [Nat.digits_ofDigits 256 (by norm_num) rest.reverse
      (fun l hl => hrb l (List.mem_reverse.1 hl)) hlast, List.reverse_reverse]
  show b58decode (b58encode bs) = some bs
  rw [b58decode, hvals]
  simp only
  rw [hzeros, hfold, hback, hbs]

lemma compress_length (h m : List Nat) (t : Nat) (f : Bool) : (compress h m t f).length = 8 := by
  simp [compress]

lemma blakeLoop_length :
    ∀ (fuel : Nat) (h bs : List Nat) (done : Nat), h.length = 8 →
      (blakeLoop h bs done fuel).length = 8 := by
  intro fuel
  induction fuel with
  | zero => intro h bs done hh; simpa [blakeLoop] using hh
  | succ f ih =>
    intro h bs done hh
    rw [blakeLoop]
    by_cases hc : bs.length ≤ 128
    · simp [hc, compress_length]
    · simp only [hc, if_false]
      exact ih _ _ _ (compress_length _ _ _ _)

lemma flatten_leBytes_length : ∀ hh : List Nat, ((hh.map leBytes8).flatten).length = 8 * hh.length := by
  intro hh
  induction hh with
  | nil => simp
  | cons w ws ih =>
    simp only [List.map_cons, List.flatten_cons, List.length_append, ih, List.length_cons]
    simp [leBytes8]
    ring

lemma blake2b_length (d : Nat) (hd : d ≤ 64) (data : List Nat) : (blake2b d data).length = d := by
  have hloop := blakeLoop_length (data.length + 1)
    (iv.set 0 (Nat.xor (iv.getD 0 0) (Nat.xor 0x01010000 d))) data 0 (by simp [iv])
  simp only [blake2b, List.length_take, flatten_leBytes_length, hloop]
  omega

lemma blake2b_lt (d : Nat) (data : List Nat) : ∀ x ∈ blake2b d data, x < 256 := by
  intro x hx
  simp only [blake2b] at hx
  have hx2 := List.take_subset d _ hx
  rw [List.mem_flatten] at hx2
  obtain ⟨l, hl, hxl⟩ := hx2
  rw [List.mem_map] at hl
  obtain ⟨w, _, hw⟩ := hl
  rw [← hw] at hxl
  simp only [leBytes8, List.mem_cons, List.not_mem_nil, or_false] at hxl
  rcases hxl with h | h | h | h | h | h | h | h <;>
    (rw [h]; exact Nat.mod_lt _ (by norm_num))

lemma sscheck_length (pp : List Nat) : (sscheck pp 2).length = 2 := by
  simp [sscheck, List.length_take, blake2b_length 64 (by norm_num)]

lemma sscheck_lt (pp : List Nat) : ∀ x ∈ sscheck pp 2, x < 256 := by
  intro x hx
  exact blake2b_lt 64 _ x (List.take_subset 2 _ hx)

lemma ss58_accepts (raw : List Nat) (hlen : raw.length = 35) (hb : ∀ x ∈ raw, x < 256) :
    ss58Decode (b58encode raw) =
      if raw.drop 33 = sscheck (raw.take 33) 2 then
        Except.ok (raw.getD 0 0, (raw.drop 1).take 32)
      else Except.error CodecError.checksumMismatch := by
  rw [ss58Decode, b58_decode_encode raw hb]
  simp only [hlen]
  norm_num

lemma ss58_decode_encode (fmt : Nat) (payload : List Nat) (hfmt : fmt < 256)
    (hlen : payload.length = 32) (hb : ∀ x ∈ payload, x < 256) :
    ss58Decode (ss58Encode fmt payload) = Except.ok (fmt, payload) := by
  have henc : ss58Encode fmt payload
      = b58encode ((fmt :: payload) ++ sscheck (fmt :: payload) 2) := rfl
  have hlen33 : (fmt :: payload).length = 33 := by simp [hlen]
  have hcklen : (sscheck (fmt :: payload) 2).length = 2 := sscheck_length _
  have hrawlen : ((fmt :: payload) ++ sscheck (fmt :: payload) 2).length = 35 := by
    simp [hcklen, hlen]
  have hrawb : ∀ x ∈ (fmt :: payload) ++ sscheck (fmt :: payload) 2, x < 256 := by
    intro x hx
    rcases List.mem_append.1 hx with h1 | h2
    · rcases List.mem_cons.1 h1 with h3 | h4
      · exact h3 ▸ hfmt
      · exact hb x h4
    · exact sscheck_lt _ x h2
  rw [henc, ss58_accepts _ hrawlen hrawb]
  have hdrop : ((fmt :: payload) ++ sscheck (fmt :: payload) 2).drop 33
      = sscheck (fmt :: payload) 2 := by
    rw [← hlen33, List.drop_left]
  have htake : ((fmt :: payload) ++ sscheck (fmt :: payload) 2).take 33 = fmt :: payload := by
    rw [← hlen33, List.take_left]
  rw [hdrop, htake, if_pos rfl]
  have hbody : (((fmt :: payload) ++ sscheck (fmt :: payload) 2).drop 1).take 32 = payload := by
    rw [List.cons_append, List.drop_succ_cons, List.drop_zero, ← hlen, List.take_left]
  have hget : ((fmt :: payload) ++ sscheck (fmt :: payload) 2).getD 0 0 = fmt := by
    rw [List.cons_append]
    rfl
  rw [hbody, hget]

lemma keypairPubkey_encode (fmt : Nat) (k : List Nat) (hfmt : fmt < 256)
    (hlen : k.length = 32) (hb : ∀ x ∈ k, x < 256) :
    keypairPubkey (ss58Encode fmt k) = Except.ok k := by
  rw [keypairPubkey, ss58_decode_encode fmt k hfmt hlen hb]
  simp [hlen]

lemma keypairPubkey_ok_length (cs : List Char) (pk : List Nat)
    (h : keypairPubkey cs = Except.ok pk) : pk.length = 32 := by
  rw [keypairPubkey] at h
  cases hd : ss58Decode cs with
  | error e => rw [hd] at h; exact Except.noConfusion h
  | ok pr =>
    rw [hd] at h
    by_cases hp : pr.2.length = 32
    · simp only [hp, if_true] at h
      cases h
      exact hp
    · simp only [hp, if_false] at h
      exact Except.noConfusion h

instance {ε α : Type} [DecidableEq ε] [DecidableEq α] : DecidableEq (Except ε α)
  | Except.ok x, Except.ok y => decidable_of_iff (x = y) (by simp)
  | Except.ok _, Except.error _ => isFalse (by simp)
  | Except.error _, Except.ok _ => isFalse (by simp)
  | Except.error d, Except.error e => decidable_of_iff (d = e) (by simp)

lemma fromhex_pair_eq (c c2 : Char) (rest2 : List Char) (hne : ¬ c = ' ') :
    fromhex (c :: c2 :: rest2) =
      match hexVal c, hexVal c2, fromhex rest2 with
      | some hi, some lo, some t => some ((hi * 16 + lo) :: t)
      | _, _, _ => none := by
  simp only [fromhex, if_neg hne]

lemma fromhex_fail_none (c c2 : Char) (rest2 : List Char) (hne : ¬ c = ' ')
    (hfail : ∀ hi lo t, hexVal c = some hi → hexVal c2 = some lo →
      fromhex rest2 = some t → False) :
    fromhex (c :: c2 :: rest2) = none := by
  rw [fromhex_pair_eq c c2 rest2 hne]
  cases h1 : hexVal c with
  | none => rfl
  | some hi =>
    cases h2 : hexVal c2 with
    | none => rfl
    | some lo =>
      cases h3 : fromhex rest2 with
      | none => rfl
      | some t => exact (hfail hi lo t h1 h2 h3).elim

lemma fromhex_odd :
    ∀ cs : List Char, ' ' ∉ cs → cs.length % 2 = 1 → fromhex cs = none := by
  intro cs
  induction cs using fromhex.induct with
  | case1 => intro _ h; simp at h
  | case2 rest2 ih =>
    intro hmem _
    exact absurd (List.mem_cons_self ' ' rest2) hmem
  | case3 c2 hne =>
    intro _ _
    simp [fromhex, hne]
  | case4 c hne c2 rest2 hi lo t h3 h2 h1 ih =>
    intro hmem hodd
    have hmem2 : ' ' ∉ rest2 := fun hm => hmem (by simp [hm])
    have hodd2 : rest2.length % 2 = 1 := by
      simp only [List.length_cons] at hodd
      omega
    rw [ih hmem2 hodd2] at h3
    exact Option.noConfusion h3
  | case5 c hne c2 rest2 hfail ih =>
    intro _ _
    exact fromhex_fail_none c c2 rest2 hne hfail

lemma fromhex_badchar :
    ∀ cs : List Char, ∀ c ∈ cs, hexVal c = none → ¬ c = ' ' → fromhex cs = none := by
  intro cs
  induction cs using fromhex.induct with
  | case1 => intro c hc; exact absurd hc (List.not_mem_nil c)
  | case2 rest2 ih =>
    intro c hc hval hne
    have hc2 : c ∈ rest2 := by
      rcases List.mem_cons.1 hc with h | h
      · exact absurd h hne
      · exact h
    have hstep : fromhex (' ' :: rest2) = fromhex rest2 := by
      rw [fromhex.eq_def]
      exact if_pos rfl
    rw [hstep]
    exact ih c hc2 hval hne
  | case3 c2 hne =>
    intro _ _ _ _
    simp [fromhex, hne]
  | case4 c hne c2 rest2 hi lo t h3 h2 h1 ih =>
    intro x hx hval hxs
    rcases List.mem_cons.1 hx with h | h
    · rw [h, h1] at hval; exact Option.noConfusion hval
    rcases List.mem_cons.1 h with h' | h'
    · rw [h', h2] at hval; exact Option.noConfusion hval
    · rw [ih x h' hval hxs] at h3; exact Option.noConfusion h3
  | case5 c hne c2 rest2 hfail ih =>
    intro _ _ _ _
    exact fromhex_fail_none c c2 rest2 hne hfail

lemma b58encode_shape (bs : List Nat) :
    b58encode bs = List.replicate (bs.takeWhile (· == 0)).length '1'
      ++ (Nat.digits 58 (beNat bs)).reverse.map b58Char := by
  simp only [b58encode]
  rw [digitsLE_eq 58 (by norm_num) _ _ le_rfl]

lemma digits58_head_ne_one (n : Nat) :
    ∀ x, ((Nat.digits 58 n).reverse.map b58Char).head? = some x → (x == '1') = false := by
  intro x hx
  rw [List.head?_map, List.head?_reverse] at hx
  rcases Option.map_eq_some'.1 hx with ⟨d, hd, hbx⟩
  have hn0 : n ≠ 0 := by
    intro h0
    rw [h0, Nat.digits_zero] at hd
    exact Option.noConfusion hd
  have hne : Nat.digits 58 n ≠ [] := Nat.digits_ne_nil_iff_ne_zero.mpr hn0
  have hdl : (Nat.digits 58 n).getLast hne = d := by
    have h5 := List.getLast?_eq_getLast _ hne
    rw [hd] at h5
    exact ((Option.some.injEq _ _).mp h5).symm
  have hdmem : d ∈ Nat.digits 58 n := hdl ▸ List.getLast_mem hne
  have hdlt : d < 58 := Nat.digits_lt_base (by norm_num) hdmem
  have hdne : d ≠ 0 := by
    rw [← hdl]
    exact Nat.getLast_digit_ne_zero 58 hn0
  rw [← hbx]
  exact b58Char_beq_one d hdlt hdne

set_option maxRecDepth 100000

/-- C1: for every H160 address given as a hex string of exactly 20 bytes (with
or without a leading `0x`) and every network format, `h160_to_ss58` returns the
SS58 encoding, under that format, of the 32-byte blake2b-256 digest of the
24-byte string `"evm:" ++ address bytes`. -/
theorem claim_C1 (h160_address : List Char) (ss58_format : Nat) (address_bytes : List Nat)
    (hparse : fromhex (strip0x h160_address) = some address_bytes)
    (hlen : address_bytes.length = 20) :
    h160_to_ss58 h160_address ss58_format
      = Except.ok (ss58Encode ss58_format (blake2b 32 (evmTag ++ address_bytes)))
    ∧ (evmTag ++ address_bytes).length = 24
    ∧ (blake2b 32 (evmTag ++ address_bytes)).length = 32 := by
  refine ⟨?_, by simp [evmTag, hlen], blake2b_length 32 (by norm_num) _⟩
  simp only [h160_to_ss58, hparse]

/-- Witness for C1 at the all-zero H160 address and format 7. -/
theorem claim_C1_witness :
    h160_to_ss58 ("0x0000000000000000000000000000000000000000".toList) 7
      = Except.ok (ss58Encode 7 (blake2b 32 (evmTag ++ List.replicate 20 0)))
    ∧ (evmTag ++ List.replicate 20 0).length = 24
    ∧ (blake2b 32 (evmTag ++ List.replicate 20 0)).length = 32 :=
  claim_C1 ("0x0000000000000000000000000000000000000000".toList) 7
    (List.replicate 20 0) (by decide) (by decide)

/-- C2: for every 32-byte sequence `k` and valid single-byte format `p`,
decoding the SS58 string obtained by encoding `k` under `p` returns exactly
`k` (and `p`). -/
theorem claim_C2 (k : List Nat) (p : Nat) (hlen : k.length = 32)
    (hb : ∀ x ∈ k, x < 256) (hp : p < 64) :
    ss58_to_pubkey (public_key_to_ss58 k p) = Except.ok k
    ∧ ss58Decode (public_key_to_ss58 k p) = Except.ok (p, k) := by
  refine ⟨?_, ss58_decode_encode p k (by omega) hlen hb⟩
  show keypairPubkey (ss58Encode p k) = Except.ok k
  exact keypairPubkey_encode p k (by omega) hlen hb

/-- Witness for C2 at the key of 32 one-bytes and format 3. -/
theorem claim_C2_witness :
    ss58_to_pubkey (public_key_to_ss58 (List.replicate 32 1) 3)
      = Except.ok (List.replicate 32 1)
    ∧ ss58Decode (public_key_to_ss58 (List.replicate 32 1) 3)
      = Except.ok (3, List.replicate 32 1) :=
  claim_C2 (List.replicate 32 1) 3 (by decide) (by decide) (by decide)

/-- C3: for every valid SS58 address with a 32-byte payload, `ss58_to_h160`
returns the `0x`-prefixed hex string of exactly the last 20 bytes of that
payload (dropping the first 12); applied to the SS58 encoding of the all-zero
key with format 42 it yields `0x0000000000000000000000000000000000000000`. -/
theorem claim_C3 :
    (∀ (addr : List Char) (pk : List Nat), keypairPubkey addr = Except.ok pk →
        ss58_to_h160 addr = some ('0' :: 'x' :: bytesHex (pk.drop 12)))
    ∧ ss58_to_h160 (public_key_to_ss58 (List.replicate 32 0) 42)
        = some ("0x0000000000000000000000000000000000000000".toList) := by
  have main : ∀ (addr : List Char) (pk : List Nat), keypairPubkey addr = Except.ok pk →
      ss58_to_h160 addr = some ('0' :: 'x' :: bytesHex (pk.drop 12)) := by
    intro addr pk h
    have hl := keypairPubkey_ok_length addr pk h
    simp only [ss58_to_h160, h, hl]
  refine ⟨main, ?_⟩
  have hk := keypairPubkey_encode 42 (List.replicate 32 0) (by norm_num) (by decide) (by decide)
  rw [show public_key_to_ss58 (List.replicate 32 0) 42
    = ss58Encode 42 (List.replicate 32 0) from rfl]
  rw [main _ _ hk]
  decide

/-- Witness for C3 at the canonical SS58 encoding of the all-zero key. -/
theorem claim_C3_witness :
    ss58_to_h160 ("5C4hrfjw9DjXZTzV3MwzrrAr9P1MJhSrvWGWqi1eSuyUpnhM".toList)
      = some ('0' :: 'x' :: bytesHex ((List.replicate 32 0).drop 12)) :=
  claim_C3.1 ("5C4hrfjw9DjXZTzV3MwzrrAr9P1MJhSrvWGWqi1eSuyUpnhM".toList)
    (List.replicate 32 0) (by decide)

/-- C4: contrary to the claim, `ss58_to_h160` does not propagate a typed
failure on invalid SS58 input: the source catches every exception, prints it,
and returns the sentinel `None` (here `none`), against its own declared
`-> str` return type; shown on a non-base58 input and on a truncated one. -/
theorem claim_C4 :
    ss58_to_h160 ("0".toList) = none
    ∧ ss58Decode ("0".toList) = Except.error CodecError.malformedEncoding
    ∧ ss58_to_h160 ("".toList) = none
    ∧ ss58Decode ("".toList) = Except.error CodecError.truncatedAddress :=
  ⟨by decide, by decide, by decide, by decide⟩

/-- C5 (amended): `h160_to_ss58` strips an optional `0x` and accepts any
sequence of hex-digit pairs — there is no 40-character length check; a
non-hex character or an odd number of hex digits makes it fail with the typed
hex-encoding error. -/
theorem claim_C5 :
    (∀ cs : List Char, strip0x ('0' :: 'x' :: cs) = cs)
    ∧ (∀ (cs : List Char) (p : Nat) (address_bytes : List Nat),
        fromhex (strip0x cs) = some address_bytes →
        h160_to_ss58 cs p = Except.ok (ss58Encode p (blake2b 32 (evmTag ++ address_bytes))))
    ∧ (∀ (cs : List Char) (p : Nat), fromhex (strip0x cs) = none →
        h160_to_ss58 cs p = Except.error CodecError.invalidHexEncoding)
    ∧ (∀ cs : List Char, ' ' ∉ cs → cs.length % 2 = 1 → fromhex cs = none)
    ∧ (∀ (cs : List Char) (c : Char), c ∈ cs → hexVal c = none → ¬ c = ' ' →
        fromhex cs = none) := by
  refine ⟨fun cs => rfl, ?_, ?_, fromhex_odd, fromhex_badchar⟩
  · intro cs p address_bytes h
    simp only [h160_to_ss58, h]
  · intro cs p h
    simp only [h160_to_ss58, h]

/-- Counterexample to C5 as stated: the 4-hex-character input `"abcd"` does
not fail — it is converted to a well-formed SS58 address. -/
theorem claim_C5_cex :
    h160_to_ss58 ("abcd".toList) 42
      = Except.ok ("5HiwNUzSB3Fdnh24JC6MCXT8w7KZTxBsKEQgPmrXibK2PRBi".toList) := by
  decide

/-- Witness for C5 at the odd-length input `"abc"`. -/
theorem claim_C5_witness :
    h160_to_ss58 ("abc".toList) 42 = Except.error CodecError.invalidHexEncoding :=
  claim_C5.2.2.1 ("abc".toList) 42 (by decide)

/-- C6: integrity failures of SS58 decoding (checksum mismatch, truncated
address) are reported with errors distinct from the input-format failure
(invalid base58 character): the decoder yields `malformedEncoding` exactly
when base58 decoding fails, any other failure implies the string was base58,
and `ss58_to_pubkey` re-raises the same typed cause. -/
theorem claim_C6 :
    (∀ cs : List Char,
        ss58Decode cs = Except.error CodecError.malformedEncoding ↔ b58decode cs = none)
    ∧ (∀ (cs : List Char) (e : CodecError), ss58Decode cs = Except.error e →
        e ≠ CodecError.malformedEncoding → b58decode cs ≠ none)
    ∧ (∀ (cs : List Char) (e : CodecError), ss58Decode cs = Except.error e →
        ss58_to_pubkey cs = Except.error e)
    ∧ CodecError.checksumMismatch ≠ CodecError.malformedEncoding
    ∧ CodecError.truncatedAddress ≠ CodecError.malformedEncoding := by
  have hA : ∀ cs : List Char,
      ss58Decode cs = Except.error CodecError.malformedEncoding ↔ b58decode cs = none := by
    intro cs
    cases hb : b58decode cs with
    | none => simp [ss58Decode, hb]
    | some raw =>
      simp only [ss58Decode, hb]
      constructor
      · intro h
        exfalso
        by_cases hl : raw.length < 35
        · rw [if_pos hl] at h
          simp at h
        · rw [if_neg hl] at h
          by_cases hc : raw.drop (raw.length - 2) = sscheck (raw.take (raw.length - 2)) 2
          · rw [if_pos hc] at h
            exact Except.noConfusion h
          · rw [if_neg hc] at h
            simp at h
      · intro h
        exact Option.noConfusion h
  refine ⟨hA, ?_, ?_, by decide, by decide⟩
  · intro cs e h hne hnone
    have h2 := (hA cs).mpr hnone
    rw [h] at h2
    injection h2 with h3
    exact hne h3
  · intro cs e h
    simp only [ss58_to_pubkey, keypairPubkey, h]

/-- Witness for C6: a non-base58 string and a truncated base58 string. -/
theorem claim_C6_witness :
    b58decode ("0O".toList) = none
    ∧ ss58_to_pubkey ("123".toList) = Except.error CodecError.truncatedAddress :=
  ⟨(claim_C6.1 ("0O".toList)).mp (by decide),
    claim_C6.2.2.1 ("123".toList) CodecError.truncatedAddress (by decide)⟩

/-- C7: for every byte sequence, base58 decoding inverts base58 encoding. -/
theorem claim_C7 :
    ∀ bs : List Nat, (∀ x ∈ bs, x < 256) → b58decode (b58encode bs) = some bs :=
  fun bs h => b58_decode_encode bs h

/-- Witness for C7 at the empty, the all-zero and a mixed byte sequence. -/
theorem claim_C7_witness :
    b58decode (b58encode []) = some []
    ∧ b58decode (b58encode [0, 0, 0]) = some [0, 0, 0]
    ∧ b58decode (b58encode [0, 255, 7, 42]) = some [0, 255, 7, 42] :=
  ⟨claim_C7 [] (by decide), claim_C7 [0, 0, 0] (by decide),
    claim_C7 [0, 255, 7, 42] (by decide)⟩

/-- C8: base58-encoding `n` zero bytes yields `n` `'1'` characters, and in
general the leading `'1'` characters of the output are in bijection with the
leading zero bytes of the input. -/
theorem claim_C8 :
    (∀ n : Nat, b58encode (List.replicate n 0) = List.replicate n '1')
    ∧ (∀ bs : List Nat,
        ((b58encode bs).takeWhile (· == '1')).length = (bs.takeWhile (· == 0)).length) := by
  constructor
  · intro n
    have h2 : beNat (List.replicate n 0) = 0 := by
      rw [beNat_eq, List.reverse_replicate, ofDigits_replicate_zero]
    have h1 : (List.replicate n (0 : Nat)).takeWhile (· == 0) = List.replicate n 0 := by
      induction n with
      | zero => rfl
      | succ k ih => simp [List.replicate_succ, List.takeWhile_cons, ih]
    simp only [b58encode, h1, h2, List.length_replicate, digitsLE]
    simp
  · intro bs
    rw [b58encode_shape]
    exact length_takeWhile_replicate_append _ '1' rfl _ _ (digits58_head_ne_one (beNat bs))

/-- C9 (amended): the decoder accepts a two-byte checksum exactly when it is
the tagged `SS58PRE` checksum of the body, and for the canonical all-zero
payload the tagged checksum differs from the untagged truncated hash; the
universal difference claimed fails only at rare two-byte collisions. -/
theorem claim_C9 :
    (∀ tagged ck : List Nat, tagged.length = 33 → (∀ x ∈ tagged, x < 256) →
        ck.length = 2 → (∀ x ∈ ck, x < 256) →
        ((ss58Decode (b58encode (tagged ++ ck))).isOk = true ↔ ck = sscheck tagged 2))
    ∧ sscheck (42 :: List.replicate 32 0) 2
        ≠ (blake2b 64 (42 :: List.replicate 32 0)).take 2 := by
  constructor
  · intro tagged ck hlt hbt hlc hbc
    have hraw : (tagged ++ ck).length = 35 := by simp [hlt, hlc]
    have hb : ∀ x ∈ tagged ++ ck, x < 256 := by
      intro x hx
      rcases List.mem_append.1 hx with h | h
      exacts [hbt x h, hbc x h]
    rw [ss58_accepts _ hraw hb]
    have hdrop : (tagged ++ ck).drop 33 = ck := by
      rw [← hlt, List.drop_left]
    have htake : (tagged ++ ck).take 33 = tagged := by
      rw [← hlt, List.take_left]
    rw [hdrop, htake]
    by_cases hc : ck = sscheck tagged 2
    · simp [hc, Except.isOk, Except.toBool]
    · simp [hc, Except.isOk, Except.toBool]
  · decide

/-- Counterexample to C9 as stated: at the prefixed payload
`42 ∥ 0^30 ∥ de 75` the tagged checksum coincides with the first two bytes of
the untagged hash of the payload alone. -/
theorem claim_C9_cex :
    sscheck (42 :: (List.replicate 30 0 ++ [222, 117])) 2
      = (blake2b 64 (42 :: (List.replicate 30 0 ++ [222, 117]))).take 2 := by
  decide

/-- Witness for C9: the canonical zero-key body with its tagged checksum is
accepted by the decoder. -/
theorem claim_C9_witness :
    (ss58Decode (b58encode ((42 :: List.replicate 32 0)
      ++ sscheck (42 :: List.replicate 32 0) 2))).isOk = true :=
  (claim_C9.1 (42 :: List.replicate 32 0) (sscheck (42 :: List.replicate 32 0) 2)
    (by decide) (by decide) (by decide) (by decide)).mpr rfl

/-- C10: for every valid 20-byte hex string, `h160_to_ss58` with format 42
produces an address that `ss58_to_pubkey` decodes without error to exactly
the 32-byte blake2b-256 digest of `"evm:" ++ bytes`. -/
theorem claim_C10 (h160_address : List Char) (address_bytes : List Nat)
    (hparse : fromhex (strip0x h160_address) = some address_bytes)
    (_hlen : address_bytes.length = 20) :
    h160_to_ss58 h160_address 42
      = Except.ok (ss58Encode 42 (blake2b 32 (evmTag ++ address_bytes)))
    ∧ ss58_to_pubkey (ss58Encode 42 (blake2b 32 (evmTag ++ address_bytes)))
      = Except.ok (blake2b 32 (evmTag ++ address_bytes)) := by
  constructor
  · simp only [h160_to_ss58, hparse]
  · show keypairPubkey (ss58Encode 42 (blake2b 32 (evmTag ++ address_bytes)))
      = Except.ok (blake2b 32 (evmTag ++ address_bytes))
    exact keypairPubkey_encode 42 _ (by norm_num)
      (blake2b_length 32 (by norm_num) _) (blake2b_lt 32 _)

/-- Witness for C10 at a concrete 20-byte hex string. -/
theorem claim_C10_witness :
    h160_to_ss58 ("abcdef0123456789abcdef0123456789abcdef01".toList) 42
      = Except.ok (ss58Encode 42 (blake2b 32 (evmTag
          ++ [171, 205, 239, 1, 35, 69, 103, 137, 171, 205, 239, 1, 35, 69, 103, 137,
              171, 205, 239, 1])))
    ∧ ss58_to_pubkey (ss58Encode 42 (blake2b 32 (evmTag
          ++ [171, 205, 239, 1, 35, 69, 103, 137, 171, 205, 239, 1, 35, 69, 103, 137,
              171, 205, 239, 1])))
      = Except.ok (blake2b 32 (evmTag
          ++ [171, 205, 239, 1, 35, 69, 103, 137, 171, 205, 239, 1, 35, 69, 103, 137,
              171, 205, 239, 1])) :=
  claim_C10 ("abcdef0123456789abcdef0123456789abcdef01".toList) _ (by decide) (by decide)
